import Mathlib

/-!
A shallow embedding of the `lift` interactive-fiction interpreter core
(`lift-rs/src/story.rs`): the page registry (`Story`), the scoped session
state (`State`), the recursive content evaluator (`Interpreter::eval`),
the dispatch loop (`play` / `send` / `process_result`) and state restore
(`load_state`).  External collaborators (the dynamic `Value` type, the
expression language, the page-body parser, the JSON codec) are modelled
from the spec as small concrete instances or as function parameters.

The possibly-divergent Rust recursion (unbounded `While` / `For` / `Import`
chains and `Goto` cycles) is embedded with an explicit fuel parameter:
`none` means the fuel ran out, `some` results agree with the source for
every terminating run.  The three mutually recursive pieces of
`Interpreter::eval` (the node walk, the `For` iteration loop, the `While`
loop) are packaged as one structurally recursive function `run` over a
`Frame` request type so that concrete runs reduce definitionally.
-/

set_option linter.unusedVariables false

namespace Lift

/-- Association-list lookup, modelling `HashMap::get` (keys are unique). -/
def alookup {α : Type} : List (String × α) → String → Option α
  | [], _ => none
  | (k, v) :: rest, key => if k = key then some v else alookup rest key

/-- Association-list insert-or-replace, modelling `HashMap::insert`. -/
def ainsert {α : Type} : List (String × α) → String → α → List (String × α)
  | [], key, v => [(key, v)]
  | (k, w) :: rest, key, v =>
    if k = key then (key, v) :: rest else (k, w) :: ainsert rest key v

/-- Modelled from the spec: the external dynamically-typed `Value`
(`lift-rs/src/value.rs`, not under `src/`).  Per the collaborator
contract of the spec it supports truthiness (`is_true`), indexed mutable access along a
path of sub-values (`get_mut`, modelled functionally by `setPath`), and
ordered iteration over (key, value) pairs (`iter`). -/
inductive Value where
  | null : Value
  | bool : Bool → Value
  | num : Int → Value
  | str : String → Value
  | list : List Value → Value

/-- Modelled from the spec: `Value::is_true`. -/
def Value.is_true : Value → Bool
  | .null => false
  | .bool b => b
  | .num i => i != 0
  | .str s => s != ""
  | .list xs => !xs.isEmpty

/-- Modelled from the spec: `Value::iter`, an ordered sequence of
(key, value) pairs; lists iterate with their integer positions as keys. -/
def Value.iter : Value → List (Value × Value)
  | .list xs => xs.enum.map (fun p => (Value.num p.1, p.2))
  | _ => []

/-- Modelled from the spec: `Value::get_mut` followed by assignment,
functionally — resolve an index path and replace the sub-value there,
`none` when the path does not resolve (non-list target, bad index). -/
def Value.setPath : List Value → Value → Value → Option Value
  | [], newVal, _ => some newVal
  | i :: rest, newVal, Value.list xs =>
    match i with
    | Value.num n =>
      if n < 0 then none
      else
        match xs[n.toNat]? with
        | some x =>
          match Value.setPath rest newVal x with
          | some xi => some (Value.list (xs.set n.toNat xi))
          | none => none
        | none => none
    | _ => none
  | _ :: _, _, _ => none

/-- Modelled from the spec: rendering a `Value` as display text (the
templating form of expression evaluation). -/
def Value.toText : Value → String
  | .null => ""
  | .bool b => if b then "true" else "false"
  | .num i => toString i
  | .str s => s
  | .list _ => ""

/-- Source item `PageAction` (`lift-rs/src/content.rs`): a stable reference into a
given page into its `actions` list. -/
structure PageAction where
  page : String
  index : Nat
deriving DecidableEq

/-- Source item `Element` (`story.rs`): a rendered, player-facing output item. -/
inductive Element where
  | text : String → Element
  | link : String → String → Element
  | contentLink : String → PageAction → Element
  | jumpLink : String → String → PageAction → Element
  | input : String → PageAction → Element
  | error : String → Element
deriving DecidableEq

/-- Source item `State` (`story.rs`): the session state.  The Rust field `local` is a
Lean keyword, so it is named `locals` here. -/
structure State where
  current_page : String
  global : List (String × Value)
  locals : List (String × List (String × Value))
  output : List Element

/-- Source item `State::get`: page-local scope first, then global fallback. -/
def State.get (st : State) (page : String) (vname : String) : Option Value :=
  match alookup st.locals page with
  | some m =>
    match alookup m vname with
    | some v => some v
    | none => alookup st.global vname
  | none => alookup st.global vname

/-- Source item `State::set`: unconditional global upsert. -/
def State.set (st : State) (vname : String) (value : Value) : State :=
  { st with global := ainsert st.global vname value }

/-- Source item `State::set_index`: empty index path falls back to `set`; otherwise
the existing global value must resolve the path or the write is dropped. -/
def State.set_index (st : State) (vname : String) (indices : List Value)
    (value : Value) : State :=
  if indices.isEmpty then st.set vname value
  else
    match alookup st.global vname with
    | some var =>
      match Value.setPath indices value var with
      | some newv => { st with global := ainsert st.global vname newv }
      | none => st
    | none => st

/-- Source item `State::set_local`: upsert into the local scope of the current page,
creating the scope mapping of that page on first use. -/
def State.set_local (st : State) (vname : String) (value : Value) : State :=
  let m := (alookup st.locals st.current_page).getD []
  { st with locals := ainsert st.locals st.current_page (ainsert m vname value) }

/-- Source item `State::set_local_index`: like `set_index` but scoped to the current
page; the write is silently dropped when page scope, variable or path do
not resolve. -/
def State.set_local_index (st : State) (vname : String) (indices : List Value)
    (value : Value) : State :=
  if indices.isEmpty then st.set_local vname value
  else
    match alookup st.locals st.current_page with
    | some m =>
      match alookup m vname with
      | some var =>
        match Value.setPath indices value var with
        | some newv =>
          { st with locals := ainsert st.locals st.current_page (ainsert m vname newv) }
        | none => st
      | none => st
    | none => st

/-- Modelled from the spec: the external expression language
(`lift-rs/src/expression.rs`, not under `src/`).  An expression is opaque
to the core; it is evaluated against the session state, resolving variable
reads through the scoped `StateManager::get` accessor (which reads via the
current page).  A constant and a variable read suffice as a model. -/
inductive Expr where
  | const : Value → Expr
  | var : String → Expr

/-- Modelled from the spec: `eval` of an expression against the state; a
variable absent from both scopes evaluates to the empty `null` value. -/
def Expr.eval (e : Expr) (st : State) : Value :=
  match e with
  | .const v => v
  | .var x => (State.get st st.current_page x).getD Value.null

/-- Modelled from the spec: the templating (`eval_to_text`) form. -/
def Expr.evalText (e : Expr) (st : State) : String :=
  (e.eval st).toText

/-- Source item `Action` (`content.rs`): link descriptor variants attached to `Link`
content, as destructured by `Interpreter::eval`. -/
inductive Action where
  | normal : Expr → Expr → Action
  | content : Expr → PageAction → Action
  | jumpLink : Expr → Expr → PageAction → Action
  | input : String → PageAction → Action

/-- Source item `Content` (`content.rs`): the AST node type of a page body, with the
variants matched by `Interpreter::eval`.  Lean keywords force the names
`imp` (Import), `ifC`/`elseIfC`/`elseC`, `forC`, `whileC`. -/
inductive Content where
  | text : Expr → Content
  | link : Action → Content
  | goto : Expr → Content
  | imp : Expr → Content
  | set : Bool → String → List Expr → Expr → Content
  | ifC : Expr → List Content → Content
  | elseIfC : Expr → List Content → Content
  | elseC : List Content → Content
  | forC : Option String → String → Expr → List Content → Content
  | whileC : Expr → List Content → Content
  | error : String → Content

/-- Source item `Page` (`content.rs`): top-level content plus indexed action blocks. -/
structure Page where
  content : List Content
  actions : List (List Content)

/-- Source item `Story` (`story.rs`): the page registry and the entry page title. -/
structure Story where
  first_page : String
  pages : List (String × Page)

/-- Source item `Story::get_action`: resolve a `PageAction` to its bound content. -/
def Story.get_action (story : Story) (action : PageAction) : Option (List Content) :=
  match alookup story.pages action.page with
  | some page => page.actions[action.index]?
  | none => none

/-- Source item `StoryAction` (`story.rs`): the pending control action. -/
inductive StoryAction where
  | goto : String → StoryAction
  | halt : StoryAction
deriving DecidableEq

/-- Source item `StoryResult` (`story.rs`): accumulated output plus pending action. -/
structure StoryResult where
  output : List Element
  action : StoryAction
deriving DecidableEq

/-- The three mutually recursive call shapes inside `Interpreter::eval`:
the sequential node walk (with the `if_action` tri-state flag and the
output accumulated so far), the `For` iteration loop, and the `While`
loop.  Packaging them as one request type lets `run` recurse structurally
on fuel alone. -/
inductive Frame where
  | nodes : State → Option Bool → List Content → List Element → Frame
  | forF : State → List (Value × Value) → Option String → String → List Content → Frame
  | whileF : State → Expr → List Content → Frame

/-- Source item `Interpreter::eval` (`story.rs` lines 291-385).  `Frame.nodes st ifa
content acc` is the sequential walk over `content` with tri-state flag
`ifa` and accumulated output `acc`; since the accumulated pending action
is `Halt` whenever the walk continues, a node that produces a pending
`Goto` returns immediately (the end-of-iteration check of the source).
`Frame.forF` and `Frame.whileF` are the `Content::For` and
`Content::While` loops.  `none` models a run that needs more fuel. -/
def run (story : Story) : Nat → Frame → Option (State × List Element × StoryAction)
  | 0, _ => none
  | fuel+1, frame =>
    match frame with
    | Frame.nodes st ifa content acc =>
      match content with
      | [] => some (st, acc, StoryAction.halt)
      | c :: rest =>
        match c with
        | Content.text s =>
          run story fuel (Frame.nodes st ifa rest (acc ++ [Element.text (s.evalText st)]))
        | Content.link a =>
          let el : Element :=
            match a with
            | Action.normal title destination =>
              Element.link (title.evalText st) (destination.evalText st)
            | Action.content title action =>
              Element.contentLink (title.evalText st) action
            | Action.jumpLink title destination action =>
              Element.jumpLink (title.evalText st) (destination.evalText st) action
            | Action.input vname action =>
              Element.input vname action
          run story fuel (Frame.nodes st ifa rest (acc ++ [el]))
        | Content.goto page => some (st, acc, StoryAction.goto (page.evalText st))
        | Content.imp page_title =>
          match alookup story.pages (page_title.evalText st) with
          | some page =>
            match run story fuel (Frame.nodes st none page.content []) with
            | none => none
            | some (st', out, act) =>
              match act with
              | StoryAction.goto p => some (st', acc ++ out, StoryAction.goto p)
              | StoryAction.halt => run story fuel (Frame.nodes st' ifa rest (acc ++ out))
          | none => run story fuel (Frame.nodes st ifa rest acc)
        | Content.set isLocal vname indices expression =>
          let value := expression.eval st
          let ind := indices.map (fun x => x.eval st)
          let st' := if isLocal then st.set_local_index vname ind value
                     else st.set_index vname ind value
          run story fuel (Frame.nodes st' ifa rest acc)
        | Content.ifC expression cbody =>
          if (expression.eval st).is_true then
            match run story fuel (Frame.nodes st none cbody []) with
            | none => none
            | some (st', out, act) =>
              match act with
              | StoryAction.goto p => some (st', acc ++ out, StoryAction.goto p)
              | StoryAction.halt =>
                run story fuel (Frame.nodes st' (some true) rest (acc ++ out))
          else run story fuel (Frame.nodes st (some false) rest acc)
        | Content.elseIfC expression cbody =>
          match ifa with
          | some false =>
            if (expression.eval st).is_true then
              match run story fuel (Frame.nodes st none cbody []) with
              | none => none
              | some (st', out, act) =>
                match act with
                | StoryAction.goto p => some (st', acc ++ out, StoryAction.goto p)
                | StoryAction.halt =>
                  run story fuel (Frame.nodes st' (some true) rest (acc ++ out))
            else run story fuel (Frame.nodes st (some false) rest acc)
          | _ => run story fuel (Frame.nodes st ifa rest acc)
        | Content.elseC cbody =>
          match ifa with
          | some false =>
            match run story fuel (Frame.nodes st none cbody []) with
            | none => none
            | some (st', out, act) =>
              match act with
              | StoryAction.goto p => some (st', acc ++ out, StoryAction.goto p)
              | StoryAction.halt => run story fuel (Frame.nodes st' none rest (acc ++ out))
          | _ => run story fuel (Frame.nodes st ifa rest acc)
        | Content.forC index vname expression cbody =>
          let iterator_value := expression.eval st
          match run story fuel (Frame.forF st iterator_value.iter index vname cbody) with
          | none => none
          | some (st', out, act) =>
            match act with
            | StoryAction.goto p => some (st', acc ++ out, StoryAction.goto p)
            | StoryAction.halt => run story fuel (Frame.nodes st' ifa rest (acc ++ out))
        | Content.whileC expression cbody =>
          match run story fuel (Frame.whileF st expression cbody) with
          | none => none
          | some (st', out, act) =>
            match act with
            | StoryAction.goto p => some (st', acc ++ out, StoryAction.goto p)
            | StoryAction.halt => run story fuel (Frame.nodes st' ifa rest (acc ++ out))
        | Content.error e =>
          run story fuel (Frame.nodes st ifa rest (acc ++ [Element.error e]))
    | Frame.forF st iters index vname cbody =>
      match iters with
      | [] => some (st, [], StoryAction.halt)
      | (i, value) :: restIters =>
        let st1 := match index with
          | some ix => st.set_local ix i
          | none => st
        let st2 := st1.set_local vname value
        match run story fuel (Frame.nodes st2 none cbody []) with
        | none => none
        | some (st', out, act) =>
          match act with
          | StoryAction.goto p => some (st', out, StoryAction.goto p)
          | StoryAction.halt =>
            match run story fuel (Frame.forF st' restIters index vname cbody) with
            | none => none
            | some (st'', out2, act2) => some (st'', out ++ out2, act2)
    | Frame.whileF st expression cbody =>
      if (expression.eval st).is_true then
        match run story fuel (Frame.nodes st none cbody []) with
        | none => none
        | some (st', out, act) =>
          match act with
          | StoryAction.goto p => some (st', out, StoryAction.goto p)
          | StoryAction.halt =>
            match run story fuel (Frame.whileF st' expression cbody) with
            | none => none
            | some (st'', out2, act2) => some (st'', out ++ out2, act2)
      else some (st, [], StoryAction.halt)

/-- Source item `Interpreter::eval` on a whole content sequence: fresh `StoryResult`,
fresh `if_action` flag. -/
def eval (story : Story) (fuel : Nat) (st : State) (content : List Content) :
    Option (State × StoryResult) :=
  match run story fuel (Frame.nodes st none content []) with
  | none => none
  | some (st', out, act) => some (st', ⟨out, act⟩)

/-- A single apostrophe, kept out of string literals. -/
def sq : String := String.singleton (Char.ofNat 39)

/-- The invalid-page message of `Interpreter::play`, with the page title
between single quotes. -/
def invalidPageMsg (page : String) : String :=
  "Invalid page: " ++ sq ++ page ++ sq

/-- The `loop` of `Interpreter::play` (`story.rs` lines 256-272): render the
current page, append its output; halt ends the loop, a redirect clears the
buffer and repeats on the target page; an unresolvable page appends a single
error element and stops. -/
def playLoop (story : Story) : Nat → State → Option State
  | 0, _ => none
  | fuel+1, st =>
    match alookup story.pages st.current_page with
    | some page =>
      match eval story fuel st page.content with
      | none => none
      | some (st', r) =>
        match r.action with
        | StoryAction.halt => some { st' with output := st'.output ++ r.output }
        | StoryAction.goto p => playLoop story fuel { st' with output := [], current_page := p }
    | none =>
      some { st with output := st.output ++ [Element.error (invalidPageMsg st.current_page)] }

/-- Source item `Interpreter::play`: clear the output buffer, then run the render loop. -/
def play (story : Story) (fuel : Nat) (st : State) : Option State :=
  playLoop story fuel { st with output := [] }

/-- Source item `Interpreter::process_result`: on `Halt` splice the produced output in
place of the selected element; on `Goto` switch page, fully re-render, and
prepend the produced output. -/
def process_result (story : Story) (fuel : Nat) (st : State) (result : StoryResult)
    (index : Nat) : Option State :=
  match result.action with
  | StoryAction.halt =>
    some { st with output :=
      st.output.take index ++ result.output ++ st.output.drop (index + 1) }
  | StoryAction.goto page =>
    match play story fuel { st with current_page := page } with
    | none => none
    | some st' => some { st' with output := result.output ++ st'.output }

/-- Source item `Interpreter::send`: dispatch on the element at the selected index of
the output buffer.  Unresolvable actions, out-of-range indices and
non-interactive variants leave the state untouched. -/
def send (story : Story) (fuel : Nat) (st : State) (index : Nat) (value : Value) :
    Option State :=
  match st.output[index]? with
  | some (Element.link _ destination) =>
    play story fuel { st with current_page := destination }
  | some (Element.contentLink _ action) =>
    match story.get_action action with
    | some content =>
      match eval story fuel st content with
      | none => none
      | some (st', result) => process_result story fuel st' result index
    | none => some st
  | some (Element.jumpLink _ destination action) =>
    match story.get_action action with
    | some content =>
      match eval story fuel st content with
      | none => none
      | some (st', result) =>
        process_result story fuel st' { result with action := StoryAction.goto destination } index
    | none => some st
  | some (Element.input vname action) =>
    match story.get_action action with
    | some content =>
      let st1 := st.set_local vname value
      match eval story fuel st1 content with
      | none => none
      | some (st', result) => process_result story fuel st' result index
    | none => some st
  | _ => some st

/-- Source item `Interpreter::load_state`: `self.state = serde_json::from_str(json)?`.
Modelled from the spec: `serde_json::from_str` is an external deserializer,
modelled as an arbitrary parse function; the boolean reports success.  The
`?` operator returns before the assignment on a parse failure, so the
pre-call state is kept whole. -/
def load_state (parse : String → Option State) (st : State) (json : String) :
    State × Bool :=
  match parse json with
  | some s => (s, true)
  | none => (st, false)

/-- Splitting a character list on a separator, keeping empty segments
(the semantics of `str::split`). -/
def splitOnChar (c : Char) : List Char → List (List Char)
  | [] => [[]]
  | x :: xs =>
    match splitOnChar c xs with
    | [] => [[]]
    | h :: t => if x = c then [] :: h :: t else (x :: h) :: t

/-- Strip one trailing carriage return, as `str::lines` does for lines
terminated by a CRLF sequence. -/
def stripCR (l : List Char) : List Char :=
  if l.getLast? = some (Char.ofNat 13) then l.dropLast else l

/-- Source item `str::lines`: split on newline; every newline-terminated segment has a
trailing carriage return stripped; a final empty segment (from a trailing
newline) is dropped. -/
def rustLines (s : String) : List String :=
  let parts := splitOnChar (Char.ofNat 10) s.toList
  let front := (parts.dropLast.map stripCR).map (fun cs => String.mk cs)
  match parts.getLast? with
  | some l => if l = [] then front else front ++ [String.mk l]
  | none => front

/-- Whitespace for `str::trim`, modelled on the ASCII subset. -/
def isWS (c : Char) : Bool :=
  c = Char.ofNat 32 || c = Char.ofNat 9 || c = Char.ofNat 10 || c = Char.ofNat 13

/-- Source item `str::trim` on the title capture. -/
def rustTrim (s : String) : String :=
  String.mk (((s.toList.dropWhile isWS).reverse.dropWhile isWS).reverse)

/-- The header regex `^#+(?P<title>.+)` of `Story::new`: a line of one or
more marker characters followed by at least one more character matches;
with greedy backtracking the title capture is everything after the longest
marker prefix that still leaves the capture non-empty.  Returns the
trimmed title of a header line, `none` for a non-header line. -/
def headerTitle (line : String) : Option String :=
  let cs := line.toList
  let k := (cs.takeWhile (fun c => c = Char.ofNat 35)).length
  if 1 ≤ k ∧ 2 ≤ cs.length then
    some (rustTrim (String.mk (cs.drop (min k (cs.length - 1)))))
  else none

/-- Source item `StoryError` (`story.rs`): construction errors.  The parse-error
variant keeps the page title and computed line number. -/
inductive StoryError where
  | content : String → Nat → StoryError
  | duplicatePage : String → Nat → StoryError
deriving DecidableEq

/-- Source item `Story::parse_page`: run the external page-body parser (a parameter
here; `Page::parse` lives in `lift-rs/src/parser.rs`, not under `src/`),
mapping a located failure to a `StoryError` whose line number counts the
lines of the body text up to the failure offset. -/
def parse_page (parse : String → String → Except (Nat × String) Page)
    (line_number : Nat) (title : String) (content : String) : Except StoryError Page :=
  match parse title content with
  | Except.ok page => Except.ok page
  | Except.error (size, _) =>
    Except.error (StoryError.content title (line_number + (rustLines (content.take size)).length))

/-- The mutable locals of the `Story::new` scan loop. -/
structure BuildSt where
  pages : List (String × Page)
  content_acumulator : String
  first_page : Option String
  current_page : Option String
  page_line : Nat

/-- One iteration of the `Story::new` line scan: a header line finalizes
the accumulated page (if any), checks the new title for duplicates, and
records the first/current page titles exactly as the source does (the
`first_page` update reads the *pre-assignment* `current_page`); a
non-header line accumulates into the current page body, and is discarded
before the first header. -/
def buildStep (parse : String → String → Except (Nat × String) Page)
    (line_number : Nat) (line : String) (b : BuildSt) : Except StoryError BuildSt :=
  match headerTitle line with
  | some title =>
    match (match b.current_page with
           | some t =>
             (parse_page parse b.page_line t b.content_acumulator).map
               (fun page => (ainsert b.pages t page, ""))
           | none => Except.ok (b.pages, b.content_acumulator)) with
    | Except.error e => Except.error e
    | Except.ok (pages, acc) =>
      let pl := line_number + 1
      if (alookup pages title).isSome then Except.error (StoryError.duplicatePage title pl)
      else Except.ok
        { pages := pages
          content_acumulator := acc
          first_page := if b.first_page.isNone then b.current_page else b.first_page
          current_page := some title
          page_line := pl }
  | none =>
    match b.current_page with
    | some _ => Except.ok { b with content_acumulator := b.content_acumulator ++ line ++ "\n" }
    | none => Except.ok b

/-- The `Story::new` scan loop over enumerated lines. -/
def buildLoop (parse : String → String → Except (Nat × String) Page) :
    List (Nat × String) → BuildSt → Except StoryError BuildSt
  | [], b => Except.ok b
  | (n, l) :: rest, b =>
    match buildStep parse n l b with
    | Except.error e => Except.error e
    | Except.ok b' => buildLoop parse rest b'

/-- Source item `Story::new` (`story.rs` lines 71-110): scan the source lines, then
finalize the trailing page and resolve the entry page title. -/
def storyNew (parse : String → String → Except (Nat × String) Page)
    (source : String) : Except StoryError Story :=
  match buildLoop parse (rustLines source).enum
      { pages := [], content_acumulator := "", first_page := none,
        current_page := none, page_line := 1 } with
  | Except.error e => Except.error e
  | Except.ok b =>
    match b.current_page with
    | some t =>
      match parse_page parse b.page_line t b.content_acumulator with
      | Except.error e => Except.error e
      | Except.ok page =>
        Except.ok
          { pages := ainsert b.pages t page
            first_page := ((if b.first_page.isNone then some t else b.first_page).getD "") }
    | none => Except.ok { pages := b.pages, first_page := b.first_page.getD "" }

mutual

/-- A content node that performs no variable write when evaluated: not a
`Set`, not a `For` (whose iterations always write their bindings), and
with mutation-free bodies.  `Import` targets are covered by the
story-level `StoryPure`. -/
def noMut : Content → Bool
  | Content.set _ _ _ _ => false
  | Content.forC _ _ _ _ => false
  | Content.ifC _ cbody => noMutSeq cbody
  | Content.elseIfC _ cbody => noMutSeq cbody
  | Content.elseC cbody => noMutSeq cbody
  | Content.whileC _ cbody => noMutSeq cbody
  | _ => true

/-- Every node of a sequence is mutation-free. -/
def noMutSeq : List Content → Bool
  | [] => true
  | c :: rest => noMut c && noMutSeq rest

end

/-- Every page body of the story is mutation-free (action blocks are
irrelevant to `play`). -/
def StoryPure (story : Story) : Bool :=
  story.pages.all (fun p => noMutSeq p.2.content)

/-! ## Concrete instances used by witnesses and counterexamples -/

/-- The state relation every evaluator step preserves: the current page is
unchanged, the output buffer field is untouched, and the local scopes of
all pages other than the current one are untouched. -/
def Preserves (st st' : State) : Prop :=
  st'.current_page = st.current_page ∧ st'.output = st.output ∧
  ∀ p, p ≠ st.current_page → alookup st'.locals p = alookup st.locals p

/-- The state a `Frame` carries. -/
def Frame.st : Frame → State
  | Frame.nodes s _ _ _ => s
  | Frame.forF s _ _ _ _ => s
  | Frame.whileF s _ _ => s

/-- The same `Frame` with the output buffer of the carried state replaced. -/
def Frame.withOutput : Frame → List Element → Frame
  | Frame.nodes s ifa c acc, o => Frame.nodes { s with output := o } ifa c acc
  | Frame.forF s it ix v c, o => Frame.forF { s with output := o } it ix v c
  | Frame.whileF s e c, o => Frame.whileF { s with output := o } e c

def w6Story : Story := { first_page := "P", pages := [] }

def w6St : State := { current_page := "P", global := [], locals := [], output := [] }

def w9St : State :=
  { current_page := "P", global := [("x", Value.num 1)], locals := [], output := [] }

def w10Story : Story :=
  { first_page := "P", pages := [("P", { content := [], actions := [] })] }

def w10St : State :=
  { current_page := "P"
    global := []
    locals := []
    output := [Element.contentLink "c" (PageAction.mk "X" 0),
               Element.jumpLink "j" "D" (PageAction.mk "P" 0),
               Element.input "v" (PageAction.mk "X" 0)] }

def w7St : State :=
  { current_page := "P"
    global := [("x", Value.num 1)]
    locals := [("P", [("y", Value.str "s")])]
    output := [Element.text "t"] }

def c2ActionBlock : List Content :=
  [Content.text (Expr.const (Value.str "a")), Content.text (Expr.const (Value.str "b"))]

def c2Story : Story :=
  { first_page := "P", pages := [("P", { content := [], actions := [c2ActionBlock] })] }

def c2St : State :=
  { current_page := "P"
    global := []
    locals := []
    output := [Element.contentLink "L" (PageAction.mk "P" 0), Element.text "keep"] }

def c2St' : State :=
  { current_page := "P"
    global := []
    locals := []
    output := [Element.text "a", Element.text "b", Element.text "keep"] }

def c4Story : Story := { first_page := "P", pages := [] }

def c4St : State :=
  { current_page := "P"
    global := []
    locals := []
    output := [Element.input "name" (PageAction.mk "X" 0)] }

def w4Story : Story :=
  { first_page := "P"
    pages := [("P", { content := [], actions := [[Content.text (Expr.const (Value.str "done"))]] })] }

def w4St : State :=
  { current_page := "P"
    global := []
    locals := []
    output := [Element.input "name" (PageAction.mk "P" 0)] }

def c5PageA : Page :=
  { content := [Content.set true "x" [] (Expr.const (Value.num 1))], actions := [] }

def c5PageB : Page :=
  { content := [Content.imp (Expr.const (Value.str "A"))], actions := [] }

def c5Story : Story :=
  { first_page := "B", pages := [("A", c5PageA), ("B", c5PageB)] }

def c5St : State := { current_page := "B", global := [], locals := [], output := [] }

def c5St' : State :=
  { current_page := "B", global := [], locals := [("B", [("x", Value.num 1)])], output := [] }

def c1PageA : Page := { content := [Content.goto (Expr.const (Value.str "B"))], actions := [] }
def c1PageB : Page := { content := [Content.goto (Expr.const (Value.str "C"))], actions := [] }
def c1PageC : Page := { content := [Content.text (Expr.const (Value.str "end"))], actions := [] }

def c1Story : Story :=
  { first_page := "A", pages := [("A", c1PageA), ("B", c1PageB), ("C", c1PageC)] }

def c1St : State := { current_page := "A", global := [], locals := [], output := [] }

def c1Final : State :=
  { current_page := "C", global := [], locals := [], output := [Element.text "end"] }

def c3Page : Page :=
  { content := [Content.ifC (Expr.var "x") [Content.text (Expr.const (Value.str "seen"))],
                Content.set false "x" [] (Expr.const (Value.num 1))]
    actions := [] }

def c3Story : Story := { first_page := "P", pages := [("P", c3Page)] }

def c3St : State := { current_page := "P", global := [], locals := [], output := [] }

def c3St1 : State :=
  { current_page := "P", global := [("x", Value.num 1)], locals := [], output := [] }

def c3St2 : State :=
  { current_page := "P", global := [("x", Value.num 1)], locals := [],
    output := [Element.text "seen"] }

def w3Page : Page := { content := [Content.text (Expr.const (Value.str "hi"))], actions := [] }

def w3Story : Story := { first_page := "P", pages := [("P", w3Page)] }

def w3St : State := { current_page := "P", global := [], locals := [], output := [] }

def w3St' : State :=
  { current_page := "P", global := [], locals := [], output := [Element.text "hi"] }

def w2St : State :=
  { current_page := "P"
    global := []
    locals := []
    output := [Element.text "pre", Element.contentLink "L" (PageAction.mk "P" 0),
               Element.text "post"] }

/-- The header titles of a source text, in order. -/
def headersOf (source : String) : List String :=
  (rustLines source).filterMap headerTitle

def w8Parse : String → String → Except (Nat × String) Page :=
  fun _ _ => Except.ok { content := [], actions := [] }

def w8Source : String := "# A\nhello\n# B\nbye\n"

/-! ## Helper lemmas -/

theorem alookup_ainsert_self {α : Type} (l : List (String × α)) (k : String) (v : α) :
    alookup (ainsert l k v) k = some v := by
  induction l with
  | nil => simp [ainsert, alookup]
  | cons hd tl ih =>
    obtain ⟨hk, hv⟩ := hd
    by_cases h : hk = k
    · simp [ainsert, alookup, h]
    · simp [ainsert, alookup, h, ih]

theorem alookup_ainsert_ne {α : Type} (l : List (String × α)) (k p : String) (v : α)
    (h : p ≠ k) : alookup (ainsert l k v) p = alookup l p := by
  have hkp : ¬ (k = p) := fun hh => h hh.symm
  induction l with
  | nil => simp [ainsert, alookup, hkp]
  | cons hd tl ih =>
    obtain ⟨hk, hv⟩ := hd
    by_cases hh : hk = k
    · subst hh
      simp [ainsert, alookup, hkp]
    · simp [ainsert, alookup, hh, ih]

theorem alookup_mem {α : Type} (l : List (String × α)) (k : String) (v : α)
    (h : alookup l k = some v) : (k, v) ∈ l := by
  induction l with
  | nil => simp [alookup] at h
  | cons hd tl ih =>
    obtain ⟨hk, hv⟩ := hd
    by_cases hh : hk = k
    · subst hh
      simp [alookup] at h
      simp [h]
    · simp [alookup, hh] at h
      exact List.mem_cons_of_mem _ (ih h)

theorem alookup_eq_none {α : Type} (l : List (String × α)) (k : String)
    (h : k ∉ l.map Prod.fst) : alookup l k = none := by
  induction l with
  | nil => rfl
  | cons hd tl ih =>
    obtain ⟨hk, hv⟩ := hd
    simp only [List.map_cons, List.mem_cons, not_or] at h
    have h1 : ¬ (hk = k) := fun hh => h.1 hh.symm
    simp [alookup, h1, ih h.2]

theorem ainsert_fresh {α : Type} (l : List (String × α)) (k : String) (v : α)
    (h : k ∉ l.map Prod.fst) : ainsert l k v = l ++ [(k, v)] := by
  induction l with
  | nil => rfl
  | cons hd tl ih =>
    obtain ⟨hk, hv⟩ := hd
    simp only [List.map_cons, List.mem_cons, not_or] at h
    have h1 : ¬ (hk = k) := fun hh => h.1 hh.symm
    simp [ainsert, h1, ih h.2]

theorem preserves_refl (st : State) : Preserves st st :=
  ⟨rfl, rfl, fun _ _ => rfl⟩

theorem preserves_trans {a b c : State} (h1 : Preserves a b) (h2 : Preserves b c) :
    Preserves a c := by
  obtain ⟨c1, o1, l1⟩ := h1
  obtain ⟨c2, o2, l2⟩ := h2
  refine ⟨c2.trans c1, o2.trans o1, fun p hp => ?_⟩
  rw [l2 p (c1 ▸ hp), l1 p hp]

theorem preserves_set (st : State) (v : String) (val : Value) :
    Preserves st (st.set v val) :=
  ⟨rfl, rfl, fun _ _ => rfl⟩

theorem preserves_set_local (st : State) (v : String) (val : Value) :
    Preserves st (st.set_local v val) :=
  ⟨rfl, rfl, fun p hp => alookup_ainsert_ne _ _ _ _ hp⟩

theorem preserves_set_index (st : State) (v : String) (ind : List Value) (val : Value) :
    Preserves st (st.set_index v ind val) := by
  cases st with
  | mk cp g l outp =>
    cases ind with
    | nil => exact ⟨rfl, rfl, fun _ _ => rfl⟩
    | cons i ind =>
      simp only [State.set_index, List.isEmpty_cons, Bool.false_eq_true, if_false]
      split
      · split
        · exact ⟨rfl, rfl, fun _ _ => rfl⟩
        · exact preserves_refl _
      · exact preserves_refl _

theorem preserves_set_local_index (st : State) (v : String) (ind : List Value) (val : Value) :
    Preserves st (st.set_local_index v ind val) := by
  cases st with
  | mk cp g l outp =>
    cases ind with
    | nil => exact preserves_set_local _ _ _
    | cons i ind =>
      simp only [State.set_local_index, List.isEmpty_cons, Bool.false_eq_true, if_false]
      split
      · split
        · split
          · exact ⟨rfl, rfl, fun p hp => alookup_ainsert_ne _ _ _ _ hp⟩
          · exact preserves_refl _
        · exact preserves_refl _
      · exact preserves_refl _

@[simp] theorem eval_output (e : Expr) (st : State) (o : List Element) :
    Expr.eval e { st with output := o } = Expr.eval e st := rfl

@[simp] theorem evalText_output (e : Expr) (st : State) (o : List Element) :
    Expr.evalText e { st with output := o } = Expr.evalText e st := rfl

@[simp] theorem set_local_output (st : State) (v : String) (val : Value) (o : List Element) :
    State.set_local { st with output := o } v val =
    { State.set_local st v val with output := o } := rfl

@[simp] theorem set_index_output (st : State) (v : String) (ind : List Value) (val : Value)
    (o : List Element) :
    State.set_index { st with output := o } v ind val =
    { State.set_index st v ind val with output := o } := by
  cases st with
  | mk cp g l outp =>
    cases ind with
    | nil => rfl
    | cons i ind =>
      simp only [State.set_index, List.isEmpty_cons, Bool.false_eq_true, if_false]
      split
      · split
        · rfl
        · rfl
      · rfl

@[simp] theorem set_local_index_output (st : State) (v : String) (ind : List Value)
    (val : Value) (o : List Element) :
    State.set_local_index { st with output := o } v ind val =
    { State.set_local_index st v ind val with output := o } := by
  cases st with
  | mk cp g l outp =>
    cases ind with
    | nil => rfl
    | cons i ind =>
      simp only [State.set_local_index, List.isEmpty_cons, Bool.false_eq_true, if_false]
      split
      · split
        · split
          · rfl
          · rfl
        · rfl
      · rfl

/-- The central frame invariant of the evaluator, proved for all three
call shapes at once: a successful `run` leaves the current page unchanged,
never touches the output-buffer field, never touches the local scope of
any page other than the current one, and is insensitive to the output
buffer carried in the state (the output field is transported unchanged).
-/
theorem run_frame_all (story : Story) : ∀ (fuel : Nat),
    (∀ (st : State) (ifa : Option Bool) (c : List Content) (acc : List Element)
       (st' : State) (out : List Element) (act : StoryAction),
       run story fuel (Frame.nodes st ifa c acc) = some (st', out, act) →
       Preserves st st' ∧
       ∀ o, run story fuel (Frame.nodes { st with output := o } ifa c acc) =
         some ({ st' with output := o }, out, act)) ∧
    (∀ (st : State) (iters : List (Value × Value)) (index : Option String) (vname : String)
       (cbody : List Content) (st' : State) (out : List Element) (act : StoryAction),
       run story fuel (Frame.forF st iters index vname cbody) = some (st', out, act) →
       Preserves st st' ∧
       ∀ o, run story fuel (Frame.forF { st with output := o } iters index vname cbody) =
         some ({ st' with output := o }, out, act)) ∧
    (∀ (st : State) (e : Expr) (cbody : List Content)
       (st' : State) (out : List Element) (act : StoryAction),
       run story fuel (Frame.whileF st e cbody) = some (st', out, act) →
       Preserves st st' ∧
       ∀ o, run story fuel (Frame.whileF { st with output := o } e cbody) =
         some ({ st' with output := o }, out, act)) := by
  intro fuel
  induction fuel with
  | zero =>
    refine ⟨fun st ifa c acc st' out act h => ?_,
            fun st iters index vname cbody st' out act h => ?_,
            fun st e cbody st' out act h => ?_⟩ <;> simp [run] at h
  | succ n ih =>
    obtain ⟨ihN, ihF, ihW⟩ := ih
    refine ⟨?_, ?_, ?_⟩
    · -- nodes
      intro st ifa c acc st' out act h
      cases c with
      | nil =>
        simp only [run, Option.some.injEq, Prod.mk.injEq] at h
        obtain ⟨rfl, rfl, rfl⟩ := h
        exact ⟨preserves_refl st, fun o => by simp [run]⟩
      | cons c rest =>
        cases c with
        | text s =>
          simp only [run] at h
          obtain ⟨hp, htr⟩ := ihN _ _ _ _ _ _ _ h
          refine ⟨hp, fun o => ?_⟩
          simp only [run]
          exact htr o
        | link a =>
          cases a with
          | normal t d =>
            simp only [run] at h
            obtain ⟨hp, htr⟩ := ihN _ _ _ _ _ _ _ h
            refine ⟨hp, fun o => ?_⟩
            simp only [run]
            exact htr o
          | content t pa =>
            simp only [run] at h
            obtain ⟨hp, htr⟩ := ihN _ _ _ _ _ _ _ h
            refine ⟨hp, fun o => ?_⟩
            simp only [run]
            exact htr o
          | jumpLink t d pa =>
            simp only [run] at h
            obtain ⟨hp, htr⟩ := ihN _ _ _ _ _ _ _ h
            refine ⟨hp, fun o => ?_⟩
            simp only [run]
            exact htr o
          | input v pa =>
            simp only [run] at h
            obtain ⟨hp, htr⟩ := ihN _ _ _ _ _ _ _ h
            refine ⟨hp, fun o => ?_⟩
            simp only [run]
            exact htr o
        | goto page =>
          simp only [run, Option.some.injEq, Prod.mk.injEq] at h
          obtain ⟨rfl, rfl, rfl⟩ := h
          exact ⟨preserves_refl st, fun o => by simp [run]⟩
        | imp page_title =>
          simp only [run] at h
          cases hl : alookup story.pages (Expr.evalText page_title st) with
          | none =>
            simp only [hl] at h
            obtain ⟨hp, htr⟩ := ihN _ _ _ _ _ _ _ h
            refine ⟨hp, fun o => ?_⟩
            simp only [run, evalText_output, hl]
            exact htr o
          | some page =>
            simp only [hl] at h
            cases hs : run story n (Frame.nodes st none page.content []) with
            | none => simp [hs] at h
            | some r1 =>
              obtain ⟨st1, out1, act1⟩ := r1
              simp only [hs] at h
              obtain ⟨hp1, htr1⟩ := ihN _ _ _ _ _ _ _ hs
              cases act1 with
              | goto p =>
                simp only [Option.some.injEq, Prod.mk.injEq] at h
                obtain ⟨rfl, rfl, rfl⟩ := h
                refine ⟨hp1, fun o => ?_⟩
                simp only [run, evalText_output, hl, htr1 o]
              | halt =>
                obtain ⟨hp2, htr2⟩ := ihN _ _ _ _ _ _ _ h
                refine ⟨preserves_trans hp1 hp2, fun o => ?_⟩
                simp only [run, evalText_output, hl, htr1 o]
                exact htr2 o
        | set isLocal vname indices expression =>
          cases isLocal with
          | true =>
            simp only [run] at h
            obtain ⟨hp, htr⟩ := ihN _ _ _ _ _ _ _ h
            refine ⟨preserves_trans (preserves_set_local_index _ _ _ _) hp, fun o => ?_⟩
            simp only [run, eval_output, set_local_index_output]
            exact htr o
          | false =>
            simp only [run] at h
            obtain ⟨hp, htr⟩ := ihN _ _ _ _ _ _ _ h
            refine ⟨preserves_trans (preserves_set_index _ _ _ _) hp, fun o => ?_⟩
            simp only [run, eval_output, set_index_output]
            exact htr o
        | ifC expression cbody =>
          cases hc : (expression.eval st).is_true with
          | false =>
            simp only [run, hc, eq_self_iff_true, if_true, Bool.false_eq_true, if_false] at h
            obtain ⟨hp, htr⟩ := ihN _ _ _ _ _ _ _ h
            refine ⟨hp, fun o => ?_⟩
            simp only [run, eval_output, hc]
            exact htr o
          | true =>
            simp only [run, hc, eq_self_iff_true, if_true, Bool.false_eq_true, if_false] at h
            cases hs : run story n (Frame.nodes st none cbody []) with
            | none => simp [hs] at h
            | some r1 =>
              obtain ⟨st1, out1, act1⟩ := r1
              simp only [hs] at h
              obtain ⟨hp1, htr1⟩ := ihN _ _ _ _ _ _ _ hs
              cases act1 with
              | goto p =>
                simp only [Option.some.injEq, Prod.mk.injEq] at h
                obtain ⟨rfl, rfl, rfl⟩ := h
                refine ⟨hp1, fun o => ?_⟩
                simp [run, eval_output, hc, htr1 o]
              | halt =>
                obtain ⟨hp2, htr2⟩ := ihN _ _ _ _ _ _ _ h
                refine ⟨preserves_trans hp1 hp2, fun o => ?_⟩
                simp only [run, eval_output, hc, htr1 o]
                exact htr2 o
        | elseIfC expression cbody =>
          cases ifa with
          | none =>
            simp only [run] at h
            obtain ⟨hp, htr⟩ := ihN _ _ _ _ _ _ _ h
            refine ⟨hp, fun o => ?_⟩
            simp only [run]
            exact htr o
          | some b =>
            cases b with
            | true =>
              simp only [run] at h
              obtain ⟨hp, htr⟩ := ihN _ _ _ _ _ _ _ h
              refine ⟨hp, fun o => ?_⟩
              simp only [run]
              exact htr o
            | false =>
              cases hc : (expression.eval st).is_true with
              | false =>
                simp only [run, hc, eq_self_iff_true, if_true, Bool.false_eq_true, if_false] at h
                obtain ⟨hp, htr⟩ := ihN _ _ _ _ _ _ _ h
                refine ⟨hp, fun o => ?_⟩
                simp only [run, eval_output, hc]
                exact htr o
              | true =>
                simp only [run, hc, eq_self_iff_true, if_true, Bool.false_eq_true, if_false] at h
                cases hs : run story n (Frame.nodes st none cbody []) with
                | none => simp [hs] at h
                | some r1 =>
                  obtain ⟨st1, out1, act1⟩ := r1
                  simp only [hs] at h
                  obtain ⟨hp1, htr1⟩ := ihN _ _ _ _ _ _ _ hs
                  cases act1 with
                  | goto p =>
                    simp only [Option.some.injEq, Prod.mk.injEq] at h
                    obtain ⟨rfl, rfl, rfl⟩ := h
                    refine ⟨hp1, fun o => ?_⟩
                    simp [run, eval_output, hc, htr1 o]
                  | halt =>
                    obtain ⟨hp2, htr2⟩ := ihN _ _ _ _ _ _ _ h
                    refine ⟨preserves_trans hp1 hp2, fun o => ?_⟩
                    simp only [run, eval_output, hc, htr1 o]
                    exact htr2 o
        | elseC cbody =>
          cases ifa with
          | none =>
            simp only [run] at h
            obtain ⟨hp, htr⟩ := ihN _ _ _ _ _ _ _ h
            refine ⟨hp, fun o => ?_⟩
            simp only [run]
            exact htr o
          | some b =>
            cases b with
            | true =>
              simp only [run] at h
              obtain ⟨hp, htr⟩ := ihN _ _ _ _ _ _ _ h
              refine ⟨hp, fun o => ?_⟩
              simp only [run]
              exact htr o
            | false =>
              simp only [run] at h
              cases hs : run story n (Frame.nodes st none cbody []) with
              | none => simp [hs] at h
              | some r1 =>
                obtain ⟨st1, out1, act1⟩ := r1
                simp only [hs] at h
                obtain ⟨hp1, htr1⟩ := ihN _ _ _ _ _ _ _ hs
                cases act1 with
                | goto p =>
                  simp only [Option.some.injEq, Prod.mk.injEq] at h
                  obtain ⟨rfl, rfl, rfl⟩ := h
                  refine ⟨hp1, fun o => ?_⟩
                  simp only [run, htr1 o]
                | halt =>
                  obtain ⟨hp2, htr2⟩ := ihN _ _ _ _ _ _ _ h
                  refine ⟨preserves_trans hp1 hp2, fun o => ?_⟩
                  simp only [run, htr1 o]
                  exact htr2 o
        | forC index vname expression cbody =>
          simp only [run] at h
          cases hs : run story n (Frame.forF st ((expression.eval st).iter) index vname cbody) with
          | none => simp [hs] at h
          | some r1 =>
            obtain ⟨st1, out1, act1⟩ := r1
            simp only [hs] at h
            obtain ⟨hp1, htr1⟩ := ihF _ _ _ _ _ _ _ _ hs
            cases act1 with
            | goto p =>
              simp only [Option.some.injEq, Prod.mk.injEq] at h
              obtain ⟨rfl, rfl, rfl⟩ := h
              refine ⟨hp1, fun o => ?_⟩
              simp only [run, eval_output, htr1 o]
            | halt =>
              obtain ⟨hp2, htr2⟩ := ihN _ _ _ _ _ _ _ h
              refine ⟨preserves_trans hp1 hp2, fun o => ?_⟩
              simp only [run, eval_output, htr1 o]
              exact htr2 o
        | whileC expression cbody =>
          simp only [run] at h
          cases hs : run story n (Frame.whileF st expression cbody) with
          | none => simp [hs] at h
          | some r1 =>
            obtain ⟨st1, out1, act1⟩ := r1
            simp only [hs] at h
            obtain ⟨hp1, htr1⟩ := ihW _ _ _ _ _ _ hs
            cases act1 with
            | goto p =>
              simp only [Option.some.injEq, Prod.mk.injEq] at h
              obtain ⟨rfl, rfl, rfl⟩ := h
              refine ⟨hp1, fun o => ?_⟩
              simp only [run, htr1 o]
            | halt =>
              obtain ⟨hp2, htr2⟩ := ihN _ _ _ _ _ _ _ h
              refine ⟨preserves_trans hp1 hp2, fun o => ?_⟩
              simp only [run, htr1 o]
              exact htr2 o
        | error e =>
          simp only [run] at h
          obtain ⟨hp, htr⟩ := ihN _ _ _ _ _ _ _ h
          refine ⟨hp, fun o => ?_⟩
          simp only [run]
          exact htr o
    · -- forF
      intro st iters index vname cbody st' out act h
      cases iters with
      | nil =>
        simp only [run, Option.some.injEq, Prod.mk.injEq] at h
        obtain ⟨rfl, rfl, rfl⟩ := h
        exact ⟨preserves_refl st, fun o => by simp [run]⟩
      | cons iv restIters =>
        obtain ⟨i, value⟩ := iv
        cases index with
        | none =>
          simp only [run] at h
          cases hs : run story n (Frame.nodes (st.set_local vname value) none cbody []) with
          | none => simp [hs] at h
          | some r1 =>
            obtain ⟨st1, out1, act1⟩ := r1
            simp only [hs] at h
            obtain ⟨hp1, htr1⟩ := ihN _ _ _ _ _ _ _ hs
            have hpre : Preserves st (st.set_local vname value) := preserves_set_local _ _ _
            cases act1 with
            | goto p =>
              simp only [Option.some.injEq, Prod.mk.injEq] at h
              obtain ⟨rfl, rfl, rfl⟩ := h
              refine ⟨preserves_trans hpre hp1, fun o => ?_⟩
              simp only [run, set_local_output, htr1 o]
            | halt =>
              cases hs2 : run story n (Frame.forF st1 restIters none vname cbody) with
              | none => simp [hs2] at h
              | some r2 =>
                obtain ⟨st2, out2, act2⟩ := r2
                simp only [hs2, Option.some.injEq, Prod.mk.injEq] at h
                obtain ⟨rfl, rfl, rfl⟩ := h
                obtain ⟨hp2, htr2⟩ := ihF _ _ _ _ _ _ _ _ hs2
                refine ⟨preserves_trans hpre (preserves_trans hp1 hp2), fun o => ?_⟩
                simp only [run, set_local_output, htr1 o, htr2 o]
        | some ix =>
          simp only [run] at h
          cases hs : run story n
              (Frame.nodes ((st.set_local ix i).set_local vname value) none cbody []) with
          | none => simp [hs] at h
          | some r1 =>
            obtain ⟨st1, out1, act1⟩ := r1
            simp only [hs] at h
            obtain ⟨hp1, htr1⟩ := ihN _ _ _ _ _ _ _ hs
            have hpre : Preserves st ((st.set_local ix i).set_local vname value) :=
              preserves_trans (preserves_set_local _ _ _) (preserves_set_local _ _ _)
            cases act1 with
            | goto p =>
              simp only [Option.some.injEq, Prod.mk.injEq] at h
              obtain ⟨rfl, rfl, rfl⟩ := h
              refine ⟨preserves_trans hpre hp1, fun o => ?_⟩
              simp only [run, set_local_output, htr1 o]
            | halt =>
              cases hs2 : run story n (Frame.forF st1 restIters (some ix) vname cbody) with
              | none => simp [hs2] at h
              | some r2 =>
                obtain ⟨st2, out2, act2⟩ := r2
                simp only [hs2, Option.some.injEq, Prod.mk.injEq] at h
                obtain ⟨rfl, rfl, rfl⟩ := h
                obtain ⟨hp2, htr2⟩ := ihF _ _ _ _ _ _ _ _ hs2
                refine ⟨preserves_trans hpre (preserves_trans hp1 hp2), fun o => ?_⟩
                simp only [run, set_local_output, htr1 o, htr2 o]
    · -- whileF
      intro st e cbody st' out act h
      cases hc : (e.eval st).is_true with
      | false =>
        simp only [run, hc, eq_self_iff_true, if_true, Bool.false_eq_true, if_false, Option.some.injEq, Prod.mk.injEq] at h
        obtain ⟨rfl, rfl, rfl⟩ := h
        refine ⟨preserves_refl st, fun o => ?_⟩
        simp [run, eval_output, hc]
      | true =>
        simp only [run, hc, eq_self_iff_true, if_true, Bool.false_eq_true, if_false] at h
        cases hs : run story n (Frame.nodes st none cbody []) with
        | none => simp [hs] at h
        | some r1 =>
          obtain ⟨st1, out1, act1⟩ := r1
          simp only [hs] at h
          obtain ⟨hp1, htr1⟩ := ihN _ _ _ _ _ _ _ hs
          cases act1 with
          | goto p =>
            simp only [Option.some.injEq, Prod.mk.injEq] at h
            obtain ⟨rfl, rfl, rfl⟩ := h
            refine ⟨hp1, fun o => ?_⟩
            simp [run, eval_output, hc, htr1 o]
          | halt =>
            cases hs2 : run story n (Frame.whileF st1 e cbody) with
            | none => simp [hs2] at h
            | some r2 =>
              obtain ⟨st2, out2, act2⟩ := r2
              simp only [hs2, Option.some.injEq, Prod.mk.injEq] at h
              obtain ⟨rfl, rfl, rfl⟩ := h
              obtain ⟨hp2, htr2⟩ := ihW _ _ _ _ _ _ hs2
              refine ⟨preserves_trans hp1 hp2, fun o => ?_⟩
              simp [run, eval_output, hc, htr1 o, htr2 o]


theorem eval_run (story : Story) (fuel : Nat) (st : State) (c : List Content)
    (st' : State) (r : StoryResult) (h : eval story fuel st c = some (st', r)) :
    run story fuel (Frame.nodes st none c []) = some (st', r.output, r.action) := by
  unfold eval at h
  cases hr : run story fuel (Frame.nodes st none c []) with
  | none => rw [hr] at h; exact absurd h (by simp)
  | some r1 =>
    obtain ⟨a, b, cc⟩ := r1
    rw [hr] at h
    simp only [Option.some.injEq, Prod.mk.injEq] at h
    obtain ⟨rfl, rfl⟩ := h
    rfl

/-- Theorem: `Interpreter::eval` preserves the current page, the output buffer and
the local scopes of all other pages. -/
theorem eval_preserves (story : Story) (fuel : Nat) (st : State) (c : List Content)
    (st' : State) (r : StoryResult) (h : eval story fuel st c = some (st', r)) :
    Preserves st st' :=
  ((run_frame_all story fuel).1 _ _ _ _ _ _ _ (eval_run story fuel st c st' r h)).1

/-- Theorem: `Interpreter::eval` is insensitive to the output buffer stored in the
state: the buffer is carried through unchanged. -/
theorem eval_withOutput (story : Story) (fuel : Nat) (st : State) (c : List Content)
    (st' : State) (r : StoryResult) (h : eval story fuel st c = some (st', r))
    (o : List Element) :
    eval story fuel { st with output := o } c = some ({ st' with output := o }, r) := by
  have h2 := ((run_frame_all story fuel).1 _ _ _ _ _ _ _ (eval_run story fuel st c st' r h)).2 o
  unfold eval
  rw [h2]


theorem playLoop_final (story : Story) : ∀ (fuel : Nat) (st st' : State),
    playLoop story fuel st = some st' → st.output = [] →
    (st'.output = [Element.error (invalidPageMsg st'.current_page)]) ∨
    (∃ (n : Nat) (page : Page) (stF stF' : State) (r : StoryResult),
      alookup story.pages stF.current_page = some page ∧
      stF.output = [] ∧
      eval story n stF page.content = some (stF', r) ∧
      r.action = StoryAction.halt ∧
      st' = { stF' with output := r.output }) := by
  intro fuel
  induction fuel with
  | zero => intro st st' h _; simp [playLoop] at h
  | succ n ih =>
    intro st st' h hout
    simp only [playLoop] at h
    cases hl : alookup story.pages st.current_page with
    | none =>
      simp only [hl] at h
      obtain rfl := Option.some.inj h
      left
      simp [hout]
    | some page =>
      simp only [hl] at h
      cases he : eval story n st page.content with
      | none => simp [he] at h
      | some r1 =>
        obtain ⟨st1, r⟩ := r1
        simp only [he] at h
        cases ha : r.action with
        | halt =>
          simp only [ha] at h
          obtain rfl := Option.some.inj h
          right
          have hop : st1.output = [] := by
            rw [(eval_preserves story n st page.content st1 r he).2.1, hout]
          refine ⟨n, page, st, st1, r, hl, hout, he, ha, ?_⟩
          rw [hop]
          rfl
        | goto p =>
          simp only [ha] at h
          exact ih _ _ h rfl

theorem story_pure_page (story : Story) (hpure : StoryPure story = true)
    (t : String) (page : Page) (h : alookup story.pages t = some page) :
    noMutSeq page.content = true := by
  have hm := alookup_mem _ _ _ h
  unfold StoryPure at hpure
  rw [List.all_eq_true] at hpure
  exact hpure _ hm

theorem run_pure_all (story : Story) (hpure : StoryPure story = true) : ∀ (fuel : Nat),
    (∀ (st : State) (ifa : Option Bool) (c : List Content) (acc : List Element)
       (st' : State) (out : List Element) (act : StoryAction),
       run story fuel (Frame.nodes st ifa c acc) = some (st', out, act) →
       noMutSeq c = true → st' = st) ∧
    (∀ (st : State) (e : Expr) (cbody : List Content)
       (st' : State) (out : List Element) (act : StoryAction),
       run story fuel (Frame.whileF st e cbody) = some (st', out, act) →
       noMutSeq cbody = true → st' = st) := by
  intro fuel
  induction fuel with
  | zero =>
    refine ⟨fun st ifa c acc st' out act h _ => ?_,
            fun st e cbody st' out act h _ => ?_⟩ <;> simp [run] at h
  | succ n ih =>
    obtain ⟨ihN, ihW⟩ := ih
    refine ⟨?_, ?_⟩
    · intro st ifa c acc st' out act h hm
      cases c with
      | nil =>
        simp only [run, Option.some.injEq, Prod.mk.injEq] at h
        exact h.1.symm
      | cons c rest =>
        simp only [noMutSeq, Bool.and_eq_true] at hm
        obtain ⟨hmc, hmr⟩ := hm
        cases c with
        | text s =>
          simp only [run] at h
          exact ihN _ _ _ _ _ _ _ h hmr
        | link a =>
          cases a <;> simp only [run] at h <;> exact ihN _ _ _ _ _ _ _ h hmr
        | goto page =>
          simp only [run, Option.some.injEq, Prod.mk.injEq] at h
          exact h.1.symm
        | imp page_title =>
          simp only [run] at h
          cases hl : alookup story.pages (Expr.evalText page_title st) with
          | none =>
            simp only [hl] at h
            exact ihN _ _ _ _ _ _ _ h hmr
          | some page =>
            simp only [hl] at h
            cases hs : run story n (Frame.nodes st none page.content []) with
            | none => simp [hs] at h
            | some r1 =>
              obtain ⟨st1, out1, act1⟩ := r1
              simp only [hs] at h
              have h1 : st1 = st :=
                ihN _ _ _ _ _ _ _ hs (story_pure_page story hpure _ _ hl)
              cases act1 with
              | goto p =>
                simp only [Option.some.injEq, Prod.mk.injEq] at h
                rw [h.1.symm, h1]
              | halt =>
                rw [ihN _ _ _ _ _ _ _ h hmr, h1]
        | set isLocal vname indices expression =>
          simp [noMut] at hmc
        | ifC expression cbody =>
          have hmb : noMutSeq cbody = true := by simpa [noMut] using hmc
          cases hc : (expression.eval st).is_true with
          | false =>
            simp only [run, hc, eq_self_iff_true, if_true, Bool.false_eq_true, if_false] at h
            exact ihN _ _ _ _ _ _ _ h hmr
          | true =>
            simp only [run, hc, eq_self_iff_true, if_true, Bool.false_eq_true, if_false] at h
            cases hs : run story n (Frame.nodes st none cbody []) with
            | none => simp [hs] at h
            | some r1 =>
              obtain ⟨st1, out1, act1⟩ := r1
              simp only [hs] at h
              have h1 : st1 = st := ihN _ _ _ _ _ _ _ hs hmb
              cases act1 with
              | goto p =>
                simp only [Option.some.injEq, Prod.mk.injEq] at h
                rw [h.1.symm, h1]
              | halt =>
                rw [ihN _ _ _ _ _ _ _ h hmr, h1]
        | elseIfC expression cbody =>
          have hmb : noMutSeq cbody = true := by simpa [noMut] using hmc
          cases ifa with
          | none =>
            simp only [run] at h
            exact ihN _ _ _ _ _ _ _ h hmr
          | some b =>
            cases b with
            | true =>
              simp only [run] at h
              exact ihN _ _ _ _ _ _ _ h hmr
            | false =>
              cases hc : (expression.eval st).is_true with
              | false =>
                simp only [run, hc, eq_self_iff_true, if_true, Bool.false_eq_true, if_false] at h
                exact ihN _ _ _ _ _ _ _ h hmr
              | true =>
                simp only [run, hc, eq_self_iff_true, if_true, Bool.false_eq_true, if_false] at h
                cases hs : run story n (Frame.nodes st none cbody []) with
                | none => simp [hs] at h
                | some r1 =>
                  obtain ⟨st1, out1, act1⟩ := r1
                  simp only [hs] at h
                  have h1 : st1 = st := ihN _ _ _ _ _ _ _ hs hmb
                  cases act1 with
                  | goto p =>
                    simp only [Option.some.injEq, Prod.mk.injEq] at h
                    rw [h.1.symm, h1]
                  | halt =>
                    rw [ihN _ _ _ _ _ _ _ h hmr, h1]
        | elseC cbody =>
          have hmb : noMutSeq cbody = true := by simpa [noMut] using hmc
          cases ifa with
          | none =>
            simp only [run] at h
            exact ihN _ _ _ _ _ _ _ h hmr
          | some b =>
            cases b with
            | true =>
              simp only [run] at h
              exact ihN _ _ _ _ _ _ _ h hmr
            | false =>
              simp only [run] at h
              cases hs : run story n (Frame.nodes st none cbody []) with
              | none => simp [hs] at h
              | some r1 =>
                obtain ⟨st1, out1, act1⟩ := r1
                simp only [hs] at h
                have h1 : st1 = st := ihN _ _ _ _ _ _ _ hs hmb
                cases act1 with
                | goto p =>
                  simp only [Option.some.injEq, Prod.mk.injEq] at h
                  rw [h.1.symm, h1]
                | halt =>
                  rw [ihN _ _ _ _ _ _ _ h hmr, h1]
        | forC index vname expression cbody =>
          simp [noMut] at hmc
        | whileC expression cbody =>
          have hmb : noMutSeq cbody = true := by simpa [noMut] using hmc
          simp only [run] at h
          cases hs : run story n (Frame.whileF st expression cbody) with
          | none => simp [hs] at h
          | some r1 =>
            obtain ⟨st1, out1, act1⟩ := r1
            simp only [hs] at h
            have h1 : st1 = st := ihW _ _ _ _ _ _ hs hmb
            cases act1 with
            | goto p =>
              simp only [Option.some.injEq, Prod.mk.injEq] at h
              rw [h.1.symm, h1]
            | halt =>
              rw [ihN _ _ _ _ _ _ _ h hmr, h1]
        | error e =>
          simp only [run] at h
          exact ihN _ _ _ _ _ _ _ h hmr
    · intro st e cbody st' out act h hm
      cases hc : (e.eval st).is_true with
      | false =>
        simp only [run, hc, eq_self_iff_true, if_true, Bool.false_eq_true, if_false, Option.some.injEq, Prod.mk.injEq] at h
        exact h.1.symm
      | true =>
        simp only [run, hc, eq_self_iff_true, if_true, Bool.false_eq_true, if_false] at h
        cases hs : run story n (Frame.nodes st none cbody []) with
        | none => simp [hs] at h
        | some r1 =>
          obtain ⟨st1, out1, act1⟩ := r1
          simp only [hs] at h
          have h1 : st1 = st := ihN _ _ _ _ _ _ _ hs hm
          cases act1 with
          | goto p =>
            simp only [Option.some.injEq, Prod.mk.injEq] at h
            rw [h.1.symm, h1]
          | halt =>
            cases hs2 : run story n (Frame.whileF st1 e cbody) with
            | none => simp [hs2] at h
            | some r2 =>
              obtain ⟨st2, out2, act2⟩ := r2
              simp only [hs2, Option.some.injEq, Prod.mk.injEq] at h
              rw [h.1.symm, ihW _ _ _ _ _ _ hs2 hm, h1]


theorem eval_pure (story : Story) (hpure : StoryPure story = true) (fuel : Nat)
    (st : State) (c : List Content) (st' : State) (r : StoryResult)
    (h : eval story fuel st c = some (st', r)) (hc : noMutSeq c = true) : st' = st :=
  (run_pure_all story hpure fuel).1 _ _ _ _ _ _ _ (eval_run story fuel st c st' r h) hc

theorem playLoop_pure_idem (story : Story) (hpure : StoryPure story = true) :
    ∀ (fuel : Nat) (st st' : State),
    playLoop story fuel st = some st' → st.output = [] →
    ∃ (fuel2 : Nat) (st'' : State), play story fuel2 st' = some st'' ∧ st''.output = st'.output := by
  intro fuel
  induction fuel with
  | zero => intro st st' h _; simp [playLoop] at h
  | succ n ih =>
    intro st st' h hout
    simp only [playLoop] at h
    cases hl : alookup story.pages st.current_page with
    | none =>
      simp only [hl] at h
      obtain rfl := Option.some.inj h
      refine ⟨1, { st with output := [Element.error (invalidPageMsg st.current_page)] }, ?_, ?_⟩
      · unfold play
        simp [playLoop, hl]
      · simp [hout]
    | some page =>
      simp only [hl] at h
      cases he : eval story n st page.content with
      | none => simp [he] at h
      | some r1 =>
        obtain ⟨st1, r⟩ := r1
        simp only [he] at h
        have h1 : st1 = st := eval_pure story hpure n st page.content st1 r he
            (story_pure_page story hpure _ _ hl)
        cases ha : r.action with
        | halt =>
          simp only [ha] at h
          obtain rfl := Option.some.inj h
          subst h1
          refine ⟨n + 1, { st1 with output := st1.output ++ r.output }, ?_, rfl⟩
          have hreset : ({ { st1 with output := st1.output ++ r.output } with
              output := ([] : List Element) } : State) = st1 := by
            cases st1
            simp_all
          unfold play
          rw [hreset]
          simp only [playLoop, hl, he, ha]
        | goto p =>
          simp only [ha] at h
          exact ih _ _ h rfl


theorem my_take_set {α : Type} (l : List α) (i : Nat) (x : α) :
    (l.set i x).take i = l.take i := by
  induction l generalizing i with
  | nil => rfl
  | cons a tl ih =>
    cases i with
    | zero => rfl
    | succ n => simp [List.set, List.take_succ_cons, ih]

theorem my_drop_set {α : Type} (l : List α) (i : Nat) (x : α) :
    (l.set i x).drop (i + 1) = l.drop (i + 1) := by
  rw [List.drop_set]
  simp

theorem my_getElem?_set_self {α : Type} (l : List α) (i : Nat) (x : α) (h : i < l.length) :
    (l.set i x)[i]? = some x := by
  simp [List.getElem?_set_self, h]

/-- C9: `write_global_indexed` with an empty index path is an unconditional
global upsert (`write_global`); with a non-empty path whose target variable
is missing, or whose path does not resolve in the existing value, the write
is silently dropped and the whole state is unchanged. -/
theorem set_index_empty_upsert_or_drop :
    (∀ (st : State) (vname : String) (val : Value),
      State.set_index st vname [] val = State.set st vname val) ∧
    (∀ (st : State) (vname : String) (val : Value),
      alookup (State.set st vname val).global vname = some val) ∧
    (∀ (st : State) (vname : String) (ind : List Value) (val : Value),
      ind ≠ [] → alookup st.global vname = none →
      State.set_index st vname ind val = st) ∧
    (∀ (st : State) (vname : String) (ind : List Value) (val : Value) (w : Value),
      ind ≠ [] → alookup st.global vname = some w →
      Value.setPath ind val w = none →
      State.set_index st vname ind val = st) := by
  refine ⟨fun st vname val => rfl, fun st vname val => alookup_ainsert_self _ _ _, ?_, ?_⟩
  · intro st vname ind val hne hl
    cases ind with
    | nil => exact absurd rfl hne
    | cons i tl =>
      simp only [State.set_index, List.isEmpty_cons, Bool.false_eq_true, if_false, hl]
  · intro st vname ind val w hne hl hp
    cases ind with
    | nil => exact absurd rfl hne
    | cons i tl =>
      simp only [State.set_index, List.isEmpty_cons, Bool.false_eq_true, if_false, hl, hp]

/-- C10: `send` on a ContentLink, JumpLink or Input element whose bound
`PageAction` does not resolve (absent page, or index out of range of the
actions list of the page) is a complete no-op: the state — current page, global
map, local map and output buffer — is returned unchanged; in particular no
Input value is written. -/
theorem send_unresolved_noop (story : Story) (fuel : Nat) (st : State) (i : Nat) (v : Value) :
    (∀ a : PageAction,
      (alookup story.pages a.page = none ∨
        ∃ page, alookup story.pages a.page = some page ∧ page.actions[a.index]? = none) →
      story.get_action a = none) ∧
    (∀ t a, st.output[i]? = some (Element.contentLink t a) → story.get_action a = none →
      send story fuel st i v = some st) ∧
    (∀ t d a, st.output[i]? = some (Element.jumpLink t d a) → story.get_action a = none →
      send story fuel st i v = some st) ∧
    (∀ vn a, st.output[i]? = some (Element.input vn a) → story.get_action a = none →
      send story fuel st i v = some st) := by
  refine ⟨?_, ?_, ?_, ?_⟩
  · intro a h
    unfold Story.get_action
    rcases h with h | ⟨page, h1, h2⟩
    · simp [h]
    · simp [h1, h2]
  · intro t a h1 h2
    simp only [send, h1, h2]
  · intro t d a h1 h2
    simp only [send, h1, h2]
  · intro vn a h1 h2
    simp only [send, h1, h2]

/-- C7: a failed (malformed) restore leaves every component of the
pre-call session state unchanged and reports the failure. -/
theorem load_state_failure_keeps_state (parse : String → Option State) (st : State)
    (json : String) (h : parse json = none) :
    load_state parse st json = (st, false) ∧
    (load_state parse st json).1.current_page = st.current_page ∧
    (load_state parse st json).1.global = st.global ∧
    (load_state parse st json).1.locals = st.locals ∧
    (load_state parse st json).1.output = st.output := by
  simp [load_state, h]


/-- C6: the tri-state `if_action` flag threading across If/ElseIf/Else
siblings: If evaluates its condition, sets the flag and runs its body only
when true; ElseIf evaluates its own condition (possibly flipping the flag
to true and running its body) only when the flag is currently `some false`,
and is skipped with the flag unchanged otherwise; Else runs its body
exactly when the flag is `some false`, then clears the flag to `none`; an
ElseIf or Else with no preceding false condition (flag `none` or
`some true`) never runs. -/
theorem if_chain_flag (story : Story) (fuel : Nat) (st : State) (e : Expr)
    (cbody rest : List Content) (acc : List Element) :
    (∀ ifa, (e.eval st).is_true = false →
      run story (fuel + 1) (Frame.nodes st ifa (Content.ifC e cbody :: rest) acc) =
      run story fuel (Frame.nodes st (some false) rest acc)) ∧
    (∀ ifa st1 out1, (e.eval st).is_true = true →
      run story fuel (Frame.nodes st none cbody []) = some (st1, out1, StoryAction.halt) →
      run story (fuel + 1) (Frame.nodes st ifa (Content.ifC e cbody :: rest) acc) =
      run story fuel (Frame.nodes st1 (some true) rest (acc ++ out1))) ∧
    (∀ ifa, ifa = none ∨ ifa = some true →
      run story (fuel + 1) (Frame.nodes st ifa (Content.elseIfC e cbody :: rest) acc) =
      run story fuel (Frame.nodes st ifa rest acc)) ∧
    ((e.eval st).is_true = false →
      run story (fuel + 1) (Frame.nodes st (some false) (Content.elseIfC e cbody :: rest) acc) =
      run story fuel (Frame.nodes st (some false) rest acc)) ∧
    (∀ st1 out1, (e.eval st).is_true = true →
      run story fuel (Frame.nodes st none cbody []) = some (st1, out1, StoryAction.halt) →
      run story (fuel + 1) (Frame.nodes st (some false) (Content.elseIfC e cbody :: rest) acc) =
      run story fuel (Frame.nodes st1 (some true) rest (acc ++ out1))) ∧
    (∀ st1 out1,
      run story fuel (Frame.nodes st none cbody []) = some (st1, out1, StoryAction.halt) →
      run story (fuel + 1) (Frame.nodes st (some false) (Content.elseC cbody :: rest) acc) =
      run story fuel (Frame.nodes st1 none rest (acc ++ out1))) ∧
    (∀ ifa, ifa = none ∨ ifa = some true →
      run story (fuel + 1) (Frame.nodes st ifa (Content.elseC cbody :: rest) acc) =
      run story fuel (Frame.nodes st ifa rest acc)) := by
  refine ⟨?_, ?_, ?_, ?_, ?_, ?_, ?_⟩
  · intro ifa hc
    simp [run, hc]
  · intro ifa st1 out1 hc hb
    simp [run, hc, hb]
  · rintro ifa (rfl | rfl) <;> simp [run]
  · intro hc
    simp [run, hc]
  · intro st1 out1 hc hb
    simp [run, hc, hb]
  · intro st1 out1 hb
    simp [run, hb]
  · rintro ifa (rfl | rfl) <;> simp [run]

theorem if_chain_flag_witness :
    run w6Story 1 (Frame.nodes w6St none
      [Content.elseIfC (Expr.const (Value.bool true)) [Content.error "e"]] []) =
      run w6Story 0 (Frame.nodes w6St none [] []) ∧
    run w6Story 1 (Frame.nodes w6St (some true)
      [Content.elseC [Content.error "e"]] []) =
      run w6Story 0 (Frame.nodes w6St (some true) [] []) ∧
    run w6Story 1 (Frame.nodes w6St (some true)
      [Content.ifC (Expr.const (Value.bool false)) [Content.error "e"]] []) =
      run w6Story 0 (Frame.nodes w6St (some false) [] []) :=
  ⟨(if_chain_flag w6Story 0 w6St (Expr.const (Value.bool true)) [Content.error "e"] [] []).2.2.1
      none (Or.inl rfl),
   (if_chain_flag w6Story 0 w6St (Expr.const (Value.bool true)) [Content.error "e"] [] []).2.2.2.2.2.2
      (some true) (Or.inr rfl),
   (if_chain_flag w6Story 0 w6St (Expr.const (Value.bool false)) [Content.error "e"] [] []).1
      (some true) rfl⟩

theorem set_index_witness :
    State.set_index w9St "x" [] (Value.num 2) = State.set w9St "x" (Value.num 2) ∧
    alookup (State.set w9St "x" (Value.num 2)).global "x" = some (Value.num 2) ∧
    State.set_index w9St "y" [Value.num 0] (Value.num 2) = w9St ∧
    State.set_index w9St "x" [Value.num 0] (Value.num 2) = w9St :=
  ⟨set_index_empty_upsert_or_drop.1 w9St "x" (Value.num 2),
   set_index_empty_upsert_or_drop.2.1 w9St "x" (Value.num 2),
   set_index_empty_upsert_or_drop.2.2.1 w9St "y" [Value.num 0] (Value.num 2) (by simp) rfl,
   set_index_empty_upsert_or_drop.2.2.2 w9St "x" [Value.num 0] (Value.num 2) (Value.num 1)
     (by simp) rfl rfl⟩

theorem send_unresolved_noop_witness :
    Story.get_action w10Story (PageAction.mk "P" 0) = none ∧
    send w10Story 5 w10St 0 Value.null = some w10St ∧
    send w10Story 5 w10St 1 Value.null = some w10St ∧
    send w10Story 5 w10St 2 (Value.str "val") = some w10St :=
  ⟨(send_unresolved_noop w10Story 5 w10St 0 Value.null).1 (PageAction.mk "P" 0)
      (Or.inr ⟨_, rfl, rfl⟩),
   (send_unresolved_noop w10Story 5 w10St 0 Value.null).2.1 "c" (PageAction.mk "X" 0) rfl rfl,
   (send_unresolved_noop w10Story 5 w10St 1 Value.null).2.2.1 "j" "D" (PageAction.mk "P" 0) rfl rfl,
   (send_unresolved_noop w10Story 5 w10St 2 (Value.str "val")).2.2.2 "v" (PageAction.mk "X" 0) rfl rfl⟩

theorem load_state_failure_witness :
    load_state (fun _ => none) w7St "garbage" = (w7St, false) ∧
    (load_state (fun _ => none) w7St "garbage").1.current_page = w7St.current_page ∧
    (load_state (fun _ => none) w7St "garbage").1.global = w7St.global ∧
    (load_state (fun _ => none) w7St "garbage").1.locals = w7St.locals ∧
    (load_state (fun _ => none) w7St "garbage").1.output = w7St.output :=
  load_state_failure_keeps_state (fun _ => none) w7St "garbage" rfl


/-- C2 (amended): `send` on a ContentLink whose evaluated action block
halts replaces the single element at the selected index with the produced
elements: elements before the index keep their positions and content, and
the elements after the index are preserved as a block (in order and
content), now starting at index + (number of produced elements). -/
theorem send_contentLink_halt_splice (story : Story) (fuel : Nat) (st : State) (i : Nat)
    (v : Value) (t : String) (a : PageAction) (content : List Content)
    (st1 : State) (r : StoryResult)
    (h1 : st.output[i]? = some (Element.contentLink t a))
    (h2 : story.get_action a = some content)
    (h3 : eval story fuel st content = some (st1, r))
    (h4 : r.action = StoryAction.halt) :
    send story fuel st i v =
      some { st1 with output := st.output.take i ++ r.output ++ st.output.drop (i + 1) } ∧
    (∀ j, j < i →
      (st.output.take i ++ r.output ++ st.output.drop (i + 1))[j]? = st.output[j]?) ∧
    (st.output.take i ++ r.output ++ st.output.drop (i + 1)).drop (i + r.output.length) =
      st.output.drop (i + 1) := by
  have hi : i < st.output.length := (List.getElem?_eq_some.mp h1).1
  have hout1 : st1.output = st.output := (eval_preserves story fuel st content st1 r h3).2.1
  have hlen : (st.output.take i).length = i := by
    simp only [List.length_take]
    omega
  refine ⟨?_, ?_, ?_⟩
  · simp only [send, h1, h2, h3, process_result, h4, hout1]
  · intro j hj
    rw [List.append_assoc, List.getElem?_append_left (by rw [hlen]; exact hj)]
    exact List.getElem?_take_of_lt hj
  · rw [List.append_assoc,
      show i + r.output.length = (st.output.take i).length + r.output.length by rw [hlen],
      List.drop_append,
      show r.output.length = (r.output).length + 0 by omega,
      List.drop_append]
    rfl

/-- C2 counterexample: with an action block producing two elements, the
element that was at index 1 ("keep") is no longer at index 1 after `send 0`
— it shifted to index 2 — so "every other element ... unchanged in
position" fails as stated, although the premises of the claim all hold. -/
theorem send_contentLink_halt_position_counterexample :
    c2St.output[0]? = some (Element.contentLink "L" (PageAction.mk "P" 0)) ∧
    c2Story.get_action (PageAction.mk "P" 0) = some c2ActionBlock ∧
    eval c2Story 5 c2St c2ActionBlock =
      some (c2St, ⟨[Element.text "a", Element.text "b"], StoryAction.halt⟩) ∧
    send c2Story 5 c2St 0 Value.null = some c2St' ∧
    c2St'.output[1]? ≠ c2St.output[1]? :=
  ⟨rfl, rfl, rfl, rfl, by decide⟩


/-- A failed (fuel-starved) evaluation is also insensitive to the output
buffer carried in the state. -/
theorem eval_withOutput_none (story : Story) (fuel : Nat) (st : State) (c : List Content)
    (o : List Element) (h : eval story fuel st c = none) :
    eval story fuel { st with output := o } c = none := by
  cases he : eval story fuel { st with output := o } c with
  | none => rfl
  | some r1 =>
    obtain ⟨st2, r2⟩ := r1
    have h2 := eval_withOutput story fuel _ c st2 r2 he st.output
    exact absurd (show eval story fuel st c = some ({ st2 with output := st.output }, r2) from h2)
      (by simp [h])

/-- C4 (amended): when the bound action resolves, `send` on an
Input(variable, action) element first writes the supplied value into the
local scope of the current page and then behaves exactly as `send` on a
ContentLink with the same bound action at the same index (the link title
is irrelevant); when the action does not resolve, `send` is a no-op and no
write occurs (see the counterexample for the unresolvable case). -/
theorem send_input_as_contentLink (story : Story) (fuel : Nat) (st : State) (i : Nat)
    (vname : String) (a : PageAction) (val : Value) (t : String)
    (h1 : st.output[i]? = some (Element.input vname a))
    (h2 : (story.get_action a).isSome = true) :
    send story fuel st i val =
      send story fuel
        { st.set_local vname val with output := st.output.set i (Element.contentLink t a) }
        i Value.null := by
  obtain ⟨content, hc⟩ := Option.isSome_iff_exists.mp h2
  have hi : i < st.output.length := (List.getElem?_eq_some.mp h1).1
  have hR : ({ st.set_local vname val with
      output := st.output.set i (Element.contentLink t a) } : State).output[i]? =
      some (Element.contentLink t a) := my_getElem?_set_self _ _ _ hi
  simp only [send, h1, hc, hR]
  cases he : eval story fuel (st.set_local vname val) content with
  | none =>
    rw [eval_withOutput_none story fuel _ content _ he]
  | some r1 =>
    obtain ⟨st2, r⟩ := r1
    rw [eval_withOutput story fuel _ content st2 r he (st.output.set i (Element.contentLink t a))]
    have hout2 : st2.output = st.output :=
      (eval_preserves story fuel _ content st2 r he).2.1
    cases ha : r.action with
    | halt =>
      simp only [process_result, ha, hout2]
      rw [my_take_set, my_drop_set]
    | goto p =>
      simp only [process_result, ha]
      rfl

/-- C4 counterexample: the variable write does *not* happen whenever an
Input element is selected — the code resolves the bound action first, and
with an unresolvable action (here: absent page "X") `send` returns the
state unchanged, writing nothing into any scope. -/
theorem send_input_no_write_counterexample :
    c4St.output[0]? = some (Element.input "name" (PageAction.mk "X" 0)) ∧
    send c4Story 5 c4St 0 (Value.str "bob") = some c4St ∧
    c4St.locals = [] ∧
    State.get c4St c4St.current_page "name" = none :=
  ⟨rfl, rfl, rfl, rfl⟩

theorem send_input_as_contentLink_witness :
    send w4Story 5 w4St 0 (Value.str "bob") =
      send w4Story 5
        { w4St.set_local "name" (Value.str "bob") with
          output := w4St.output.set 0 (Element.contentLink "T" (PageAction.mk "P" 0)) }
        0 Value.null :=
  send_input_as_contentLink w4Story 5 w4St 0 "name" (PageAction.mk "P" 0)
    (Value.str "bob") "T" rfl rfl


/-- C5 (amended): page-local writes are keyed by the *current* page of the session at the time of the write, and evaluation (including content reached
via Import, which does not change the current page) never touches the
local scope of any other page; so a Set-local node inside the content of
page A reached by an Import from page B binds under B — readable
afterwards via read(B, variable), not via read(A, variable) (see the
counterexample). -/
theorem local_writes_key_current_page (story : Story) :
    (∀ (fuel : Nat) (st : State) (c : List Content) (st' : State) (r : StoryResult),
      eval story fuel st c = some (st', r) →
      st'.current_page = st.current_page ∧
      ∀ p, p ≠ st.current_page → alookup st'.locals p = alookup st.locals p) ∧
    (∀ (st : State) (vname : String) (val : Value),
      State.get (st.set_local vname val) st.current_page vname = some val) := by
  constructor
  · intro fuel st c st' r h
    have hp := eval_preserves story fuel st c st' r h
    exact ⟨hp.1, hp.2.2⟩
  · intro st vname val
    unfold State.set_local State.get
    simp [alookup_ainsert_self]

/-- C5 counterexample: page B imports page A, whose content sets local
variable x; after evaluating B (the current page of the session), the binding
lives under B, `read(B, x)` finds it, and `read(A, x)` — which the claim
asserts succeeds — finds nothing. -/
theorem import_local_counterexample :
    play c5Story 10 c5St = some c5St' ∧
    State.get c5St' "B" "x" = some (Value.num 1) ∧
    State.get c5St' "A" "x" = none :=
  ⟨rfl, rfl, rfl⟩

theorem local_writes_key_current_page_witness :
    c5St'.current_page = c5St.current_page ∧
    alookup c5St'.locals "A" = alookup c5St.locals "A" ∧
    State.get (c5St.set_local "x" (Value.num 1)) c5St.current_page "x" = some (Value.num 1) :=
  ⟨((local_writes_key_current_page c5Story).1 9 c5St c5PageB.content c5St' ⟨[], StoryAction.halt⟩
      rfl).1,
   ((local_writes_key_current_page c5Story).1 9 c5St c5PageB.content c5St' ⟨[], StoryAction.halt⟩
      rfl).2 "A" (by decide),
   (local_writes_key_current_page c5Story).2 c5St "x" (Value.num 1)⟩


/-- C1: whenever evaluating the current page yields a pending Goto, `play`
discards everything accumulated in the output buffer before evaluating the
redirect target (first conjunct, the loop-step equation); consequently a
completed `play` leaves in the output buffer exactly the elements produced
by the final halting page — or the single error element for an
unresolvable page (second conjunct). -/
theorem play_discards_redirects (story : Story) :
    (∀ (fuel : Nat) (st st1 : State) (page : Page) (r : StoryResult) (p : String),
      alookup story.pages st.current_page = some page →
      eval story fuel st page.content = some (st1, r) →
      r.action = StoryAction.goto p →
      playLoop story (fuel + 1) st =
        playLoop story fuel { st1 with output := [], current_page := p }) ∧
    (∀ (fuel : Nat) (st st' : State), play story fuel st = some st' →
      (st'.output = [Element.error (invalidPageMsg st'.current_page)]) ∨
      (∃ (n : Nat) (page : Page) (stF stF' : State) (r : StoryResult),
        alookup story.pages stF.current_page = some page ∧
        stF.output = [] ∧
        eval story n stF page.content = some (stF', r) ∧
        r.action = StoryAction.halt ∧
        st' = { stF' with output := r.output })) := by
  constructor
  · intro fuel st st1 page r p hl he ha
    simp only [playLoop, hl, he, ha]
  · intro fuel st st' h
    exact playLoop_final story fuel _ st' h rfl

theorem play_discards_redirects_witness :
    playLoop c1Story 10 c1St = playLoop c1Story 9 { c1St with output := [], current_page := "B" } ∧
    ((c1Final.output = [Element.error (invalidPageMsg c1Final.current_page)]) ∨
      (∃ (n : Nat) (page : Page) (stF stF' : State) (r : StoryResult),
        alookup c1Story.pages stF.current_page = some page ∧
        stF.output = [] ∧
        eval c1Story n stF page.content = some (stF', r) ∧
        r.action = StoryAction.halt ∧
        c1Final = { stF' with output := r.output })) :=
  ⟨(play_discards_redirects c1Story).1 9 c1St c1St c1PageA ⟨[], StoryAction.goto "B"⟩ "B"
      rfl rfl rfl,
   (play_discards_redirects c1Story).2 10 c1St c1Final rfl⟩

/-- C3 (amended): `play` is idempotent on the observable output provided
no evaluated content mutates variable state (no `Set` or `For` nodes in
any page body): after `play` reaches `st'`, replaying from `st'` (with
enough evaluation fuel) reproduces the same output buffer.  Without that
restriction the claim is false: `Set` side effects persist and can change
the second render (see the counterexample). -/
theorem play_idempotent_pure (story : Story) (fuel : Nat) (st st' : State)
    (hpure : StoryPure story = true) (h : play story fuel st = some st') :
    ∃ (fuel2 : Nat) (st'' : State), play story fuel2 st' = some st'' ∧ st''.output = st'.output :=
  playLoop_pure_idem story hpure fuel _ st' h rfl

/-- C3 counterexample: a page whose body renders conditionally on a
variable it then sets; the first `play` produces no output and writes the
variable, the second `play` (no intervening `send`) produces one element,
so `play` is not idempotent on the observable output. -/
theorem play_not_idempotent_counterexample :
    play c3Story 10 c3St = some c3St1 ∧
    play c3Story 10 c3St1 = some c3St2 ∧
    c3St1.output ≠ c3St2.output :=
  ⟨rfl, rfl, by decide⟩

theorem play_idempotent_pure_witness :
    ∃ (fuel2 : Nat) (st'' : State),
      play w3Story fuel2 w3St' = some st'' ∧ st''.output = w3St'.output :=
  play_idempotent_pure w3Story 3 w3St w3St' rfl rfl


theorem send_contentLink_halt_splice_witness :
    send c2Story 5 w2St 1 Value.null =
      some { w2St with output :=
        w2St.output.take 1 ++ [Element.text "a", Element.text "b"] ++ w2St.output.drop 2 } ∧
    (w2St.output.take 1 ++ [Element.text "a", Element.text "b"] ++ w2St.output.drop 2)[0]? =
      w2St.output[0]? ∧
    (w2St.output.take 1 ++ [Element.text "a", Element.text "b"] ++ w2St.output.drop 2).drop 3 =
      w2St.output.drop 2 :=
  ⟨(send_contentLink_halt_splice c2Story 5 w2St 1 Value.null "L" (PageAction.mk "P" 0)
      c2ActionBlock w2St ⟨[Element.text "a", Element.text "b"], StoryAction.halt⟩
      rfl rfl rfl rfl).1,
   (send_contentLink_halt_splice c2Story 5 w2St 1 Value.null "L" (PageAction.mk "P" 0)
      c2ActionBlock w2St ⟨[Element.text "a", Element.text "b"], StoryAction.halt⟩
      rfl rfl rfl rfl).2.1 0 (by decide),
   (send_contentLink_halt_splice c2Story 5 w2St 1 Value.null "L" (PageAction.mk "P" 0)
      c2ActionBlock w2St ⟨[Element.text "a", Element.text "b"], StoryAction.halt⟩
      rfl rfl rfl rfl).2.2⟩


theorem filterMap_enumFrom (l : List String) : ∀ (k : Nat),
    (List.enumFrom k l).filterMap (fun nl => headerTitle nl.2) = l.filterMap headerTitle := by
  induction l with
  | nil => intro k; rfl
  | cons a tl ih => intro k; simp [List.enumFrom, List.filterMap_cons, ih]

theorem buildLoop_inv (parse : String → String → Except (Nat × String) Page)
    (hok : ∀ t c, (parse t c).isOk = true) :
    ∀ (l : List (Nat × String)) (b : BuildSt) (processed : List String),
    b.current_page = processed.getLast? →
    b.pages.map Prod.fst = processed.dropLast →
    b.first_page = processed.dropLast.head? →
    (processed ++ l.filterMap (fun nl => headerTitle nl.2)).Nodup →
    ∃ b', buildLoop parse l b = Except.ok b' ∧
      b'.current_page = (processed ++ l.filterMap (fun nl => headerTitle nl.2)).getLast? ∧
      b'.pages.map Prod.fst = (processed ++ l.filterMap (fun nl => headerTitle nl.2)).dropLast ∧
      b'.first_page = (processed ++ l.filterMap (fun nl => headerTitle nl.2)).dropLast.head? := by
  intro l
  induction l with
  | nil =>
    intro b processed h1 h2 h3 hnd
    exact ⟨b, rfl, by simpa using h1, by simpa using h2, by simpa using h3⟩
  | cons nl rest ih =>
    obtain ⟨n, line⟩ := nl
    intro b processed h1 h2 h3 hnd
    cases hH : headerTitle line with
    | none =>
      have hstep : ∃ b1, buildStep parse n line b = Except.ok b1 ∧
          b1.current_page = b.current_page ∧ b1.pages = b.pages ∧
          b1.first_page = b.first_page := by
        unfold buildStep
        rw [hH]
        cases hcp : b.current_page with
        | some t => exact ⟨_, rfl, rfl, rfl, rfl⟩
        | none => exact ⟨b, rfl, hcp, rfl, rfl⟩
      obtain ⟨b1, hb1, e1, e2, e3⟩ := hstep
      simp only [List.filterMap_cons, hH] at hnd ⊢
      obtain ⟨b', hb', d1, d2, d3⟩ :=
        ih b1 processed (by rw [e1, h1]) (by rw [e2, h2]) (by rw [e3, h3]) hnd
      refine ⟨b', ?_, d1, d2, d3⟩
      simp only [buildLoop, hb1]
      exact hb'
    | some title =>
      simp only [List.filterMap_cons, hH] at hnd ⊢
      cases hcp : b.current_page with
      | none =>
        have hproc : processed = [] := by
          rw [hcp] at h1
          exact List.getLast?_eq_none_iff.mp h1.symm
        subst hproc
        have hpages : b.pages = [] := by
          have h2x : List.map Prod.fst b.pages = [] := by simpa using h2
          exact List.map_eq_nil_iff.mp h2x
        have hfirst : b.first_page = none := by simpa using h3
        have hstep : buildStep parse n line b = Except.ok
            { pages := b.pages, content_acumulator := b.content_acumulator,
              first_page := none, current_page := some title, page_line := n + 1 } := by
          unfold buildStep
          rw [hH, hcp]
          have : alookup b.pages title = none := by rw [hpages]; rfl
          simp only [this, Option.isSome_none, Bool.false_eq_true, if_false, hfirst, hcp]
          rfl
        obtain ⟨b', hb', d1, d2, d3⟩ := ih
          { pages := b.pages, content_acumulator := b.content_acumulator,
            first_page := none, current_page := some title, page_line := n + 1 }
          [title] (by simp) (by simpa using h2) (by simp) (by simpa using hnd)
        refine ⟨b', ?_, by simpa using d1, by simpa using d2, by simpa using d3⟩
        simp only [buildLoop, hstep]
        exact hb'
      | some t =>
        have htmem : t ∈ processed.getLast? := by rw [← h1, hcp]; rfl
        have hsplit : processed.dropLast ++ [t] = processed :=
          List.dropLast_append_getLast? t htmem
        have hpnodup : processed.Nodup := (List.nodup_append.mp hnd).1
        have htfresh : t ∉ processed.dropLast := by
          intro hmem
          rw [← hsplit] at hpnodup
          exact (List.nodup_append.mp hpnodup).2.2 hmem (by simp)
        have htitle_not : title ∉ processed := by
          intro hmem
          exact (List.nodup_append.mp hnd).2.2 hmem (by simp)
        obtain ⟨page, hp⟩ : ∃ page, parse t b.content_acumulator = Except.ok page := by
          cases hpp : parse t b.content_acumulator with
          | ok page => exact ⟨page, rfl⟩
          | error e =>
            have := hok t b.content_acumulator
            rw [hpp] at this
            exact absurd this (by simp [Except.isOk, Except.toBool])
        have hpp : parse_page parse b.page_line t b.content_acumulator = Except.ok page := by
          unfold parse_page
          rw [hp]
        have hkeys : (ainsert b.pages t page).map Prod.fst = processed := by
          rw [ainsert_fresh b.pages t page (by rw [h2]; exact htfresh)]
          rw [List.map_append, h2]
          simpa using hsplit
        have hdup : alookup (ainsert b.pages t page) title = none := by
          apply alookup_eq_none
          rw [hkeys]
          exact htitle_not
        have hstep : buildStep parse n line b = Except.ok
            { pages := ainsert b.pages t page, content_acumulator := "",
              first_page := if b.first_page.isNone then b.current_page else b.first_page,
              current_page := some title, page_line := n + 1 } := by
          unfold buildStep
          rw [hH, hcp]
          simp only [hpp, Except.map, hdup, Option.isSome_none, Bool.false_eq_true, if_false, hcp]
        have hfirstnew :
            (if b.first_page.isNone then b.current_page else b.first_page) =
              (processed ++ [title]).dropLast.head? := by
          rw [List.dropLast_concat]
          cases hdl : processed.dropLast with
          | nil =>
            rw [h3, hdl]
            simp only [List.head?_nil, Option.isNone_none, if_true, hcp]
            rw [← hsplit, hdl]
            rfl
          | cons hh tl =>
            rw [h3, hdl]
            simp only [List.head?_cons, Option.isNone_some, Bool.false_eq_true, if_false]
            rw [← hsplit, hdl]
            rfl
        obtain ⟨b', hb', d1, d2, d3⟩ := ih
          { pages := ainsert b.pages t page, content_acumulator := "",
            first_page := if b.first_page.isNone then b.current_page else b.first_page,
            current_page := some title, page_line := n + 1 }
          (processed ++ [title])
          (by simp)
          (by simpa using hkeys)
          hfirstnew
          (by rw [List.append_cons] at hnd; exact hnd)
        refine ⟨b', ?_, ?_, ?_, ?_⟩
        · simp only [buildLoop, hstep]
          exact hb'
        · rw [List.append_cons]
          exact d1
        · rw [List.append_cons]
          exact d2
        · rw [List.append_cons]
          exact d3


/-- C8: for every source text whose header lines carry pairwise-distinct
(trimmed) titles and whose page bodies all parse, `Story::new` succeeds,
the registry holds exactly one page per header line, and the designated
entry page is the title of the first header line. -/
theorem storyNew_pages_and_entry (parse : String → String → Except (Nat × String) Page)
    (source : String)
    (hok : ∀ t c, (parse t c).isOk = true)
    (hnd : (headersOf source).Nodup) :
    ∃ story, storyNew parse source = Except.ok story ∧
      story.pages.length = (headersOf source).length ∧
      ∀ t ts, headersOf source = t :: ts → story.first_page = t := by
  have henum : (List.enum (rustLines source)).filterMap (fun nl => headerTitle nl.2) =
      headersOf source := filterMap_enumFrom (rustLines source) 0
  obtain ⟨b', hb', d1, d2, d3⟩ := buildLoop_inv parse hok (List.enum (rustLines source))
    { pages := [], content_acumulator := "", first_page := none,
      current_page := none, page_line := 1 }
    [] rfl rfl rfl (by rw [List.nil_append, henum]; exact hnd)
  rw [List.nil_append, henum] at d1 d2 d3
  unfold storyNew
  rw [hb']
  cases hgl : (headersOf source).getLast? with
  | none =>
    have hnil : headersOf source = [] := List.getLast?_eq_none_iff.mp hgl
    have hcur : b'.current_page = none := by rw [d1, hgl]
    simp only [hcur]
    refine ⟨_, rfl, ?_, ?_⟩
    · have hpnil : b'.pages = [] := List.map_eq_nil_iff.mp (by rw [d2, hnil]; rfl)
      rw [hpnil, hnil]
      rfl
    · intro t ts hts
      rw [hnil] at hts
      exact absurd hts (by simp)
  | some tLast =>
    have hne : headersOf source ≠ [] := by
      intro hh
      rw [hh] at hgl
      exact Option.noConfusion hgl
    have hcur : b'.current_page = some tLast := by rw [d1, hgl]
    obtain ⟨page, hp⟩ : ∃ page, parse tLast b'.content_acumulator = Except.ok page := by
      cases hpp : parse tLast b'.content_acumulator with
      | ok page => exact ⟨page, rfl⟩
      | error e =>
        have := hok tLast b'.content_acumulator
        rw [hpp] at this
        exact absurd this (by simp [Except.isOk, Except.toBool])
    have hpp : parse_page parse b'.page_line tLast b'.content_acumulator = Except.ok page := by
      unfold parse_page
      rw [hp]
    simp only [hcur, hpp]
    refine ⟨_, rfl, ?_, ?_⟩
    · have hfresh : tLast ∉ b'.pages.map Prod.fst := by
        rw [d2]
        have hsplit := List.dropLast_append_getLast? tLast
          (show tLast ∈ (headersOf source).getLast? by rw [hgl]; rfl)
        intro hmem
        have hnd2 : (headersOf source).Nodup := hnd
        rw [← hsplit] at hnd2
        exact (List.nodup_append.mp hnd2).2.2 hmem (by simp)
      show (ainsert b'.pages tLast page).length = (headersOf source).length
      rw [ainsert_fresh _ _ _ hfresh, List.length_append]
      have hplen : b'.pages.length = (headersOf source).length - 1 := by
        have hc := congrArg List.length d2
        rw [List.length_map, List.length_dropLast] at hc
        exact hc
      rw [hplen]
      have h1len : 1 ≤ (headersOf source).length := by
        cases hl : headersOf source with
        | nil => exact absurd hl hne
        | cons a l => simp
      simp only [List.length_cons, List.length_nil]
      omega
    · intro t ts hts
      cases ts with
      | nil =>
        have htl : tLast = t := by
          rw [hts] at hgl
          simpa using hgl.symm
        have hfp : b'.first_page = none := by rw [d3, hts]; rfl
        show ((if b'.first_page.isNone then some tLast else b'.first_page).getD "") = t
        rw [hfp, htl]
        rfl
      | cons t2 ts2 =>
        have hfp : b'.first_page = some t := by
          rw [d3, hts]
          rfl
        show ((if b'.first_page.isNone then some tLast else b'.first_page).getD "") = t
        rw [hfp]
        rfl


theorem storyNew_pages_and_entry_witness :
    ∃ story, storyNew w8Parse w8Source = Except.ok story ∧
      story.pages.length = (headersOf w8Source).length ∧
      ∀ t ts, headersOf w8Source = t :: ts → story.first_page = t :=
  storyNew_pages_and_entry w8Parse w8Source (fun _ _ => rfl) (by decide)

end Lift
